import Mathlib

/-!
# Verification of the oil-rs recurring-event tracker core

Shallow embedding of the tracker's data model and operations:

* the recurrence model (`Interval`, `TimePeriod`, `TimeDelta`),
* the per-event lifecycle state machine (`Status`, `StatusKind`),
* the scheduling algorithm (`TrackedEvent::next_trigger_time`),
* the event store (`EventStore`, a `BTreeMap<Uid, TrackedEvent>` modelled
  as an association list), and
* the command / undo engine (`src/tracker/command.rs`), with the Rust undo
  closures defunctionalised into an explicit `Inverse` datatype.

Conventions of the embedding:

* Timestamps (`chrono::DateTime<Local>`) are instants, modelled as `Int`
  seconds since 1970-01-01T00:00:00.  The local timezone is fixed at UTC
  offset 0, matching the `FixedOffset::east(0)` the scheduling code uses to
  build its candidate instants; calendar field accessors (`year()`,
  `month()`, `day()`) are derived with the standard civil-calendar
  conversion.
* `chrono::Duration` values are modelled as their `num_seconds()`.
* Rust panics (`unimplemented!`, `unreachable!`, and the panics of
  `NaiveDate::from_ymd` / `from_isoywd` on invalid dates) are modelled as
  `none` of an `Option`, lifted to `SchedResult.crash` where the Rust
  function would otherwise return an `Option`.
* The clock (`Time::now()` / `Local::now()`) is passed as an explicit
  `now` parameter.
-/

namespace OilRs

/-! ## Civil calendar arithmetic (model of chrono's proleptic Gregorian) -/

/-- A timestamp: seconds since 1970-01-01T00:00:00 at fixed offset 0.
Models `LocalTime = chrono::DateTime<Local>` compared as an instant. -/
abbrev LocalTime := Int

/-- `chrono::NaiveTime`, modelled as seconds from midnight. -/
abbrev NaiveTime := Nat

/-- Leap year in the proleptic Gregorian calendar. -/
def isLeap (y : Int) : Bool :=
  y % 4 == 0 && (y % 100 != 0 || y % 400 == 0)

/-- Number of days in month `m` of year `y` (1-based months). -/
def daysInMonth (y : Int) (m : Nat) : Nat :=
  if m = 2 then (if isLeap y then 29 else 28)
  else if m = 4 ∨ m = 6 ∨ m = 9 ∨ m = 11 then 30
  else 31

/-- Day number (days since 1970-01-01) of a civil date, for valid dates.
Standard era-based civil-from-days algorithm. -/
def daysFromCivil (y : Int) (m d : Nat) : Int :=
  let yAdj : Int := if m ≤ 2 then y - 1 else y
  let era : Int := yAdj.fdiv 400
  let yoe : Nat := (yAdj - era * 400).toNat
  let mp : Nat := if 3 ≤ m then m - 3 else m + 9
  let doy : Nat := (153 * mp + 2) / 5 + d - 1
  let doe : Nat := yoe * 365 + yoe / 4 - yoe / 100 + doy
  era * 146097 + (doe : Int) - 719468

/-- Civil date `(year, month, day)` of a day number. Inverse of
`daysFromCivil`. -/
def civilFromDays (z : Int) : Int × Nat × Nat :=
  let z' : Int := z + 719468
  let era : Int := z'.fdiv 146097
  let doe : Nat := (z' - era * 146097).toNat
  let yoe : Nat := (doe - doe / 1460 + doe / 36524 - doe / 146096) / 365
  let y : Int := (yoe : Int) + era * 400
  let doy : Nat := doe - (365 * yoe + yoe / 4 - yoe / 100)
  let mp : Nat := (5 * doy + 2) / 153
  let d : Nat := doy - (153 * mp + 2) / 5 + 1
  let m : Nat := if mp < 10 then mp + 3 else mp - 9
  (if m ≤ 2 then y + 1 else y, m, d)

/-- `chrono::NaiveDate::from_ymd`, which panics on an invalid date:
modelled as `none` there. Returns the day number of the date. -/
def fromYmd? (y : Int) (m d : Nat) : Option Int :=
  if 1 ≤ m ∧ m ≤ 12 ∧ 1 ≤ d ∧ d ≤ daysInMonth y m then
    some (daysFromCivil y m d)
  else none

/-- The calendar year of an instant (`Datelike::year`). -/
def yearOf (t : LocalTime) : Int := (civilFromDays (t.fdiv 86400)).1

/-- The calendar month of an instant (`Datelike::month`). -/
def monthOf (t : LocalTime) : Nat := (civilFromDays (t.fdiv 86400)).2.1

/-- The calendar day-of-month of an instant (`Datelike::day`). -/
def dayOf (t : LocalTime) : Nat := (civilFromDays (t.fdiv 86400)).2.2

/-- `NaiveDate::and_time` + `LocalTime::from_utc(_, FixedOffset::east(0))`:
the instant at day number `z`, `t` seconds after midnight. -/
def instant (z : Int) (t : NaiveTime) : LocalTime := z * 86400 + t

/-- Days-from-Monday of a day number (`Weekday::num_days_from_monday`);
1970-01-01 was a Thursday. -/
def weekdayNumFromMonday (z : Int) : Nat := ((z + 3).fmod 7).toNat

/-- Number of ISO 8601 weeks in ISO year `y`: 53 iff Jan 1 falls on a
Thursday, or on a Wednesday in a leap year; else 52. -/
def isoWeeksInYear (y : Int) : Nat :=
  let jan1wd := weekdayNumFromMonday (daysFromCivil y 1 1)
  if jan1wd = 3 ∨ (isLeap y ∧ jan1wd = 2) then 53 else 52

/-- ISO 8601 week number of an instant's date (`Datelike::iso_week().week()`).
Note the week number may belong to the previous or next ISO year. -/
def isoWeekNum (t : LocalTime) : Nat :=
  let z := t.fdiv 86400
  let y := (civilFromDays z).1
  let ord : Int := z - daysFromCivil y 1 1 + 1
  let w : Int := (weekdayNumFromMonday z : Int) + 1
  let wk : Int := (ord - w + 10).fdiv 7
  if wk < 1 then isoWeeksInYear (y - 1)
  else if wk > (isoWeeksInYear y : Int) then 1
  else wk.toNat

/-- `chrono::Weekday` (Mon..Sun). -/
inductive Weekday
  | mon | tue | wed | thu | fri | sat | sun
deriving DecidableEq, Repr

/-- `Weekday::num_days_from_monday`. -/
def Weekday.numDaysFromMonday : Weekday → Nat
  | .mon => 0 | .tue => 1 | .wed => 2 | .thu => 3
  | .fri => 4 | .sat => 5 | .sun => 6

/-- `chrono::NaiveDate::from_isoywd`, which panics when the week is out of
range for the ISO year: modelled as `none` there. Returns the day number of
the given weekday in ISO week `week` of ISO year `y`. -/
def fromIsoywd? (y : Int) (week : Nat) (wd : Weekday) : Option Int :=
  if 1 ≤ week ∧ week ≤ isoWeeksInYear y then
    let jan4 := daysFromCivil y 1 4
    let mondayOfWeek1 := jan4 - weekdayNumFromMonday jan4
    some (mondayOfWeek1 + ((week : Int) - 1) * 7 + wd.numDaysFromMonday)
  else none

/-! ## Recurrence model (`src/datamodel/interval.rs`, `src/datamodel/event.rs`) -/

/-- `AnnualDay { month, day }`. -/
structure AnnualDay where
  month : Nat
  day : Nat
deriving DecidableEq, Repr

/-- `MonthlyDay { day }`. -/
structure MonthlyDay where
  day : Nat
deriving DecidableEq, Repr

/-- `TimeDelta`: `Days(i64) | Hm(i64, i64)`. -/
inductive TimeDelta
  | Days (n : Int)
  | Hm (h m : Int)
deriving DecidableEq, Repr

/-- `TimePeriod`. -/
inductive TimePeriod
  | Annual (d : AnnualDay) (t : NaiveTime)
  | Monthly (d : MonthlyDay) (t : NaiveTime)
  | Weekly (w : Weekday) (t : NaiveTime)
  | Daily (t : NaiveTime)
  | MultiAnnual (ds : List AnnualDay)
deriving DecidableEq, Repr

/-- `Interval`. -/
inductive Interval
  | FromLastCompletion (d : TimeDelta)
  | Periodic (p : TimePeriod)
deriving DecidableEq, Repr

/-- `TimeDelta::to_duration`, as `num_seconds()`. -/
def TimeDelta.to_duration : TimeDelta → Int
  | .Days n => n * 86400
  | .Hm h m => h * 3600 + m * 60

/-- `TimeDelta::apply_to`. -/
def TimeDelta.apply_to (d : TimeDelta) (t : LocalTime) : LocalTime :=
  t + d.to_duration

/-- `TimePeriod::to_duration_heuristic`, durations as `num_seconds()`.
The Rust `MultiAnnual` arm evaluates `365 / d.len() as i64`, which panics
on an empty list (division by zero); the model yields 0 days there, and
theorems about `MultiAnnual` assume a non-empty list. -/
def TimePeriod.to_duration_heuristic : TimePeriod → Option Int
  | .Annual _ _ => some (365 * 86400)
  | .Monthly _ _ => some (30 * 86400)
  | .Weekly _ _ => some (7 * 86400)
  | .Daily _ => some 86400
  | .MultiAnnual d => some ((365 / (d.length : Int)) * 86400)

/-- `Interval::to_duration_heuristic`. -/
def Interval.to_duration_heuristic : Interval → Option Int
  | .FromLastCompletion delta => some delta.to_duration
  | .Periodic p => p.to_duration_heuristic

/-- `EventData { text, interval, stacks }`. -/
structure EventData where
  text : String
  interval : Interval
  stacks' : Bool
deriving DecidableEq, Repr

/-- `EventData::new(interval, text)`: always constructs with
`stacks: false`. -/
def EventData.new (interval : Interval) (text : String) : EventData :=
  { text := text, interval := interval, stacks' := false }

/-! ## Lifecycle state machine (`src/event/status.rs`) -/

/-- `StatusKind`. -/
inductive StatusKind
  | Dormant (t : LocalTime)
  | Triggered
  | Completed (t : LocalTime)
  | Skip (t : LocalTime)
deriving DecidableEq, Repr

/-- The source's custom `PartialEq for StatusKind`: kind-level equality
that ignores the embedded timestamps. -/
def StatusKind.kindEq : StatusKind → StatusKind → Bool
  | .Dormant _, .Dormant _ => true
  | .Completed _, .Completed _ => true
  | .Skip _, .Skip _ => true
  | .Triggered, .Triggered => true
  | .Dormant _, _ => false
  | .Triggered, _ => false
  | .Completed _, _ => false
  | .Skip _, _ => false

/-- `Status { trigger_times, status }`. -/
structure Status where
  trigger_times : List LocalTime
  status : StatusKind
deriving DecidableEq, Repr

/-- `Status::prev_trigger_time`: last element of `trigger_times`. -/
def Status.prev_trigger_time (s : Status) : Option LocalTime :=
  s.trigger_times.getLast?

/-- `Status::trigger_now`, with `Time::now()` passed explicitly; returns
the new status and the Rust return value ("became newly triggered"). -/
def Status.trigger_now (s : Status) (now : LocalTime) : Status × Bool :=
  match s.status with
  | .Dormant _ | .Completed _ =>
      ({ trigger_times := [now], status := .Triggered }, true)
  | .Skip _ =>
      ({ trigger_times := [], status := .Completed now }, false)
  | .Triggered =>
      ({ s with trigger_times := s.trigger_times ++ [now] }, false)

/-- `Status::complete_now`: unconditionally `Completed(now)` with cleared
history; reports whether the status was already `Completed`. -/
def Status.complete_now (s : Status) (now : LocalTime) : Status × Bool :=
  ({ trigger_times := [], status := .Completed now },
   match s.status with
   | .Completed _ => true
   | _ => false)

/-- `Status::skip_now`: unconditionally `Skip(now)` with cleared history. -/
def Status.skip_now (_s : Status) (now : LocalTime) : Status :=
  { trigger_times := [], status := .Skip now }

/-! ## Tracked event and the scheduling algorithm
(`src/datamodel/tracked_event.rs`) -/

/-- `TrackedEvent(EventData, Status)`; field names follow the source's
accessors `event()` / `state()`. -/
structure TrackedEvent where
  event : EventData
  state : Status
deriving DecidableEq, Repr

/-- Result of `TrackedEvent::next_trigger_time`: the Rust `Option` plus an
explicit `crash` for the panicking paths (`unimplemented!`, `unreachable!`,
invalid `from_ymd`/`from_isoywd`). -/
inductive SchedResult
  | notScheduled
  | scheduled (t : LocalTime)
  | crash
deriving DecidableEq, Repr

/-- The anchor of `next_trigger_time`: `prev_trigger_time()` when history
is non-empty, else the timestamp embedded in `Dormant`/`Skip`/`Completed`;
`Triggered` with empty history hits `unreachable!` (modelled `none`). -/
def anchor_of (state : Status) : Option LocalTime :=
  match state.prev_trigger_time with
  | some t => some t
  | none =>
    match state.status with
    | .Dormant t => some t
    | .Skip t => some t
    | .Completed t => some t
    | .Triggered => none

/-- The per-interval candidate computation of `next_trigger_time` (the
`match interval` at `src/datamodel/tracked_event.rs:113-194`), with `none`
for the panicking paths. `prev` is the anchor. -/
def schedule_from (interval : Interval) (prev : LocalTime) : Option LocalTime :=
  match interval with
  | .FromLastCompletion delta => some (delta.apply_to prev)
  | .Periodic (.Annual ⟨month, day⟩ time) => do
      let d ← fromYmd? (yearOf prev) month day
      let inst := instant d time
      if inst < prev then
        let d2 ← fromYmd? (yearOf prev + 1) month day
        pure (instant d2 time)
      else
        pure inst
  | .Periodic (.MultiAnnual _) => none
  | .Periodic (.Monthly ⟨day⟩ time) => do
      let d ← fromYmd? (yearOf prev) (monthOf prev) day
      let inst := instant d time
      if inst < prev then
        let d2 ← fromYmd? (yearOf prev) (monthOf prev % 12 + 1) day
        pure (instant d2 time)
      else
        pure inst
  | .Periodic (.Weekly wd time) => do
      let d ← fromIsoywd? (yearOf prev) (isoWeekNum prev) wd
      let inst := instant d time
      if inst < prev then
        pure (inst + 7 * 86400)
      else
        pure inst
  | .Periodic (.Daily time) => do
      let d ← fromYmd? (yearOf prev) (monthOf prev) (dayOf prev)
      let inst := instant d time
      if inst < prev then
        pure (inst + 86400)
      else
        pure inst

/-- `TrackedEvent::next_trigger_time`: the stacking guard, then the anchor,
then the per-interval rule. -/
def TrackedEvent.next_trigger_time (ev : TrackedEvent) : SchedResult :=
  if ev.state.status = StatusKind.Triggered ∧ ev.event.stacks' = false then
    .notScheduled
  else
    match anchor_of ev.state with
    | none => .crash
    | some prev =>
      match schedule_from ev.event.interval prev with
      | none => .crash
      | some t => .scheduled t

/-! ## Event store (`src/views/tracker/event_store.rs`)

`BTreeMap<Uid, TrackedEvent>` modelled as an association list with unique
keys on every store the program constructs; `storeInsert` replaces the
first occurrence of the key or appends. -/

/-- `Uid(usize)`. -/
abbrev Uid := Nat

/-- `Uid::next`. -/
def Uid.next (u : Uid) : Uid := u + 1

/-- `EventStore(BTreeMap<Uid, TrackedEvent>)`. -/
abbrev EventStore := List (Uid × TrackedEvent)

/-- `BTreeMap::insert`: maps the key to the value and returns the old
value if the key was present. -/
def storeInsert (k : Uid) (v : TrackedEvent) :
    EventStore → EventStore × Option TrackedEvent
  | [] => ([(k, v)], none)
  | (k', v') :: rest =>
    if k = k' then ((k, v) :: rest, some v')
    else ((k', v') :: (storeInsert k v rest).1, (storeInsert k v rest).2)

/-- `BTreeMap::remove`: removes the key, returning the removed value if it
was present. -/
def storeRemove (k : Uid) : EventStore → EventStore × Option TrackedEvent
  | [] => ([], none)
  | (k', v') :: rest =>
    if k = k' then (rest, some v')
    else ((k', v') :: (storeRemove k rest).1, (storeRemove k rest).2)

/-- `BTreeMap::get` / `get_mut`: lookup. -/
def storeGet (k : Uid) : EventStore → Option TrackedEvent
  | [] => none
  | (k', v') :: rest => if k = k' then some v' else storeGet k rest

/-- The keys of a store (`self.0.iter().map(|(&uid, _)| uid)`). -/
def storeKeys (s : EventStore) : List Uid := s.map Prod.fst

/-- `Iterator::max` over the keys. -/
def storeMaxKey : EventStore → Option Uid
  | [] => none
  | (k, _) :: rest =>
    match storeMaxKey rest with
    | none => some k
    | some m => some (max k m)

/-- `ItemAlreadyExistsError(uid, existing, incoming)`. -/
structure ItemAlreadyExistsError where
  key : Uid
  existing : TrackedEvent
  incoming : TrackedEvent
deriving DecidableEq, Repr

/-- `EventStore::add`: inserts via `BTreeMap::insert` and reports
`ItemAlreadyExistsError` when the key was occupied. The returned store is
the post-`insert` store in both cases, as in the source. -/
def EventStore.add (s : EventStore) (uid : Uid) (event : TrackedEvent) :
    EventStore × Except ItemAlreadyExistsError Unit :=
  match storeInsert uid event s with
  | (s', none) => (s', .ok ())
  | (s', some te) => (s', .error ⟨uid, te, event⟩)

/-- `EventStore::remove`: `NotFoundError` (the uid) when absent. -/
def EventStore.remove (s : EventStore) (uid : Uid) :
    EventStore × Except Uid TrackedEvent :=
  match storeRemove uid s with
  | (s', some te) => (s', .ok te)
  | (s', none) => (s', .error uid)

/-- `EventStore::next_free_uid`: `max + 1`, or `0` when empty. -/
def EventStore.next_free_uid (s : EventStore) : Uid :=
  match storeMaxKey s with
  | none => 0
  | some uid => uid.next

/-! ## Tracker and the command / undo engine
(`src/tracker.rs`, `src/tracker/command.rs`) -/

/-- `CommandError`. -/
inductive CommandError
  | EventNotFound (uid : Uid)
  | InvalidReceiver (desc : String)
deriving DecidableEq, Repr

/-- `Tracker::remove_event`: `None` when absent, store untouched then. -/
def remove_event (s : EventStore) (uid : Uid) :
    EventStore × Option TrackedEvent :=
  match EventStore.remove s uid with
  | (s', .ok te) => (s', some te)
  | (s', .error _) => (s', none)

/-- `Tracker::add_event_with_state` (`add_event_with_status` in the sibling
snapshot): allocates `next_free_uid` and inserts. The Rust panic branch for
a uid collision is unreachable because the allocated uid is fresh
(`next_free_uid_not_mem` below). -/
def add_event_with_state (s : EventStore) (event : EventData)
    (state : Status) : EventStore × Uid :=
  let uid := s.next_free_uid
  ((storeInsert uid ⟨event, state⟩ s).1, uid)

/-- The undo closures of `src/tracker/command.rs`, defunctionalised:
one constructor per `Box::new(move |tracker| ...)` the commands build. -/
inductive Inverse
  | removeNew (uid : Uid)
  | alterRestore (newUid : Uid) (old : TrackedEvent)
  | restoreStatus (uid : Uid) (old : Status)
  | reinsertEvents (events : List TrackedEvent)
  | restoreStatuses (snaps : List (Uid × Status))
  | noop
deriving DecidableEq, Repr

/-- Executes an undo closure on the tracker's store, mirroring the closure
bodies: `removeNew` calls `remove_event`; `alterRestore` removes the new
uid then `add_event_with_state`s the old pair; `restoreStatus(es)` writes
the snapshotted status back through `event_mut` (a warning no-op when the
uid is gone); `reinsertEvents` re-adds each pair via
`add_event_with_state`. -/
def runInverse : Inverse → EventStore → EventStore
  | .removeNew uid, s => (remove_event s uid).1
  | .alterRestore newUid old, s =>
      let s1 := (remove_event s newUid).1
      (add_event_with_state s1 old.event old.state).1
  | .restoreStatus uid old, s =>
      match storeGet uid s with
      | none => s
      | some te => (storeInsert uid ⟨te.event, old⟩ s).1
  | .reinsertEvents evs, s =>
      evs.foldl (fun acc te => (add_event_with_state acc te.event te.state).1) s
  | .restoreStatuses snaps, s =>
      snaps.foldl
        (fun acc snap =>
          match storeGet snap.1 acc with
          | none => acc
          | some te => (storeInsert snap.1 ⟨te.event, snap.2⟩ acc).1)
        s
  | .noop, s => s

/-- `CreateCommand::apply` on the `Tracker` receiver: `add_event` with
`Status::default() = Dormant(now)` and empty history; the inverse removes
the new uid. -/
def CreateCommand.apply (event : EventData) (now : LocalTime)
    (s : EventStore) : EventStore × Except CommandError (Option Inverse) :=
  let r := add_event_with_state s event ⟨[], .Dormant now⟩
  (r.1, .ok (some (.removeNew r.2)))

/-- `AlterCommand::apply` on the `Tracker` receiver: remove the old uid
(`EventNotFound` aborts before mutation), re-insert the new `EventData`
under a fresh uid carrying the old `Status`; the inverse removes the new
uid and re-adds the old pair. -/
def AlterCommand.apply (uid : Uid) (event : EventData) (s : EventStore) :
    EventStore × Except CommandError (Option Inverse) :=
  match remove_event s uid with
  | (s', none) => (s', .error (.EventNotFound uid))
  | (s', some old) =>
      let r := add_event_with_state s' event old.state
      (r.1, .ok (some (.alterRestore r.2 old)))

/-- `TriggerCommand::apply` on the `Tracker` receiver: snapshot the status,
`trigger_now`; the inverse restores the snapshot. -/
def TriggerCommand.apply (uid : Uid) (now : LocalTime) (s : EventStore) :
    EventStore × Except CommandError (Option Inverse) :=
  match storeGet uid s with
  | none => (s, .error (.EventNotFound uid))
  | some te =>
      let old := te.state
      ((storeInsert uid ⟨te.event, (te.state.trigger_now now).1⟩ s).1,
       .ok (some (.restoreStatus uid old)))

/-- The uid loop of `RemoveCommand::apply`: removes each uid in order,
accumulating the removed events; the first missing uid aborts with
`EventNotFound`, leaving earlier removals in place. -/
def remove_apply_go (s : EventStore) (uids : List Uid)
    (acc : List TrackedEvent) :
    EventStore × Except CommandError (List TrackedEvent) :=
  match uids with
  | [] => (s, .ok acc)
  | uid :: rest =>
    match remove_event s uid with
    | (s', none) => (s', .error (.EventNotFound uid))
    | (s', some te) => remove_apply_go s' rest (acc ++ [te])

/-- `RemoveCommand::apply` on the `Tracker` receiver. -/
def RemoveCommand.apply (uids : List Uid) (s : EventStore) :
    EventStore × Except CommandError (Option Inverse) :=
  match remove_apply_go s uids [] with
  | (s', .ok evs) => (s', .ok (some (.reinsertEvents evs)))
  | (s', .error e) => (s', .error e)

/-- One step of `CompleteCommand::apply`: `complete_now` for
`FromLastCompletion` events, `skip_now` for periodic ones. -/
def complete_step (te : TrackedEvent) (now : LocalTime) : Status :=
  match te.event.interval with
  | .FromLastCompletion _ => (te.state.complete_now now).1
  | .Periodic _ => te.state.skip_now now

/-- The uid loop of `CompleteCommand::apply`: per uid, snapshot the status
and apply `complete_step`; the first missing uid aborts with
`EventNotFound`, leaving earlier mutations in place. -/
def complete_apply_go (now : LocalTime) (s : EventStore) (uids : List Uid)
    (acc : List (Uid × Status)) :
    EventStore × Except CommandError (List (Uid × Status)) :=
  match uids with
  | [] => (s, .ok acc)
  | uid :: rest =>
    match storeGet uid s with
    | none => (s, .error (.EventNotFound uid))
    | some te =>
        complete_apply_go now
          (storeInsert uid ⟨te.event, complete_step te now⟩ s).1
          rest (acc ++ [(uid, te.state)])

/-- `CompleteCommand::apply` on the `Tracker` receiver. -/
def CompleteCommand.apply (uids : List Uid) (now : LocalTime)
    (s : EventStore) : EventStore × Except CommandError (Option Inverse) :=
  match complete_apply_go now s uids [] with
  | (s', .ok snaps) => (s', .ok (some (.restoreStatuses snaps)))
  | (s', .error e) => (s', .error e)

/-- `pre.foldl remove`: the store after removing a prefix of uids, used to
state that `RemoveCommand` keeps earlier removals on failure. -/
def removeAll (s : EventStore) (uids : List Uid) : EventStore :=
  uids.foldl (fun acc k => (remove_event acc k).1) s

/-- The store after completing a prefix of uids, used to state that
`CompleteCommand` keeps earlier mutations on failure. -/
def completeAll (now : LocalTime) (s : EventStore) (uids : List Uid) :
    EventStore :=
  uids.foldl
    (fun acc k =>
      match storeGet k acc with
      | none => acc
      | some te => (storeInsert k ⟨te.event, complete_step te now⟩ acc).1)
    s

/-! ## Concrete fixtures used by the counterexample and witness theorems -/

/-- A sample event definition (daily at midnight, non-stacking). -/
def sampleDataA : EventData := ⟨"a", .Periodic (.Daily 0), false⟩

/-- A second, distinct sample event definition. -/
def sampleDataB : EventData := ⟨"b", .Periodic (.Daily 0), false⟩

/-- `sampleDataA` dormant since the epoch. -/
def sampleEventA : TrackedEvent := ⟨sampleDataA, ⟨[], .Dormant 0⟩⟩

/-- `sampleDataB` dormant since one second past the epoch. -/
def sampleEventB : TrackedEvent := ⟨sampleDataB, ⟨[], .Dormant 1⟩⟩

/-- A store holding `sampleEventA` at uid 0 and `sampleEventB` at uid 1. -/
def sampleStore : EventStore := [(0, sampleEventA), (1, sampleEventB)]

/-- A store holding `sampleEventA` at uid 0 and `sampleEventB` at uid 5. -/
def sampleStore5 : EventStore := [(0, sampleEventA), (5, sampleEventB)]

/-! ## Helper lemmas about the store operations -/

theorem storeGet_of_not_mem (k : Uid) (s : EventStore)
    (h : k ∉ storeKeys s) : storeGet k s = none := by
  induction s with
  | nil => rfl
  | cons p rest ih =>
    obtain ⟨k', v'⟩ := p
    simp only [storeKeys, List.map_cons, List.mem_cons, not_or] at h
    simp only [storeGet, if_neg h.1]
    exact ih h.2

theorem storeGet_none_not_mem (k : Uid) (s : EventStore)
    (h : storeGet k s = none) : k ∉ storeKeys s := by
  induction s with
  | nil => simp [storeKeys]
  | cons p rest ih =>
    obtain ⟨k', v'⟩ := p
    by_cases hk : k = k'
    · simp [storeGet, hk] at h
    · simp only [storeGet, if_neg hk] at h
      simp only [storeKeys, List.map_cons, List.mem_cons, not_or]
      exact ⟨hk, ih h⟩

theorem storeRemove_of_not_mem (k : Uid) (s : EventStore)
    (h : k ∉ storeKeys s) : storeRemove k s = (s, none) := by
  induction s with
  | nil => rfl
  | cons p rest ih =>
    obtain ⟨k', v'⟩ := p
    simp only [storeKeys, List.map_cons, List.mem_cons, not_or] at h
    simp only [storeRemove, if_neg h.1, ih h.2]

theorem storeRemove_none (k : Uid) (s s' : EventStore)
    (h : storeRemove k s = (s', none)) : s' = s ∧ k ∉ storeKeys s := by
  induction s generalizing s' with
  | nil =>
    simp only [storeRemove, Prod.mk.injEq] at h
    simp [← h.1, storeKeys]
  | cons p rest ih =>
    obtain ⟨k', v'⟩ := p
    by_cases hk : k = k'
    · simp [storeRemove, hk] at h
    · simp only [storeRemove, if_neg hk, Prod.mk.injEq] at h
      obtain ⟨hrest, hnone⟩ :=
        ih (storeRemove k rest).1 (by rw [← h.2])
      refine ⟨by rw [← h.1, hrest], ?_⟩
      simp only [storeKeys, List.map_cons, List.mem_cons, not_or]
      exact ⟨hk, hnone⟩

theorem storeRemove_keys_sublist (k : Uid) (s : EventStore) :
    List.Sublist (storeKeys (storeRemove k s).1) (storeKeys s) := by
  induction s with
  | nil => simp [storeRemove]
  | cons p rest ih =>
    obtain ⟨k', v'⟩ := p
    by_cases hk : k = k'
    · simp only [storeRemove, if_pos hk, storeKeys, List.map_cons]
      exact List.sublist_cons_self _ _
    · simp only [storeRemove, if_neg hk, storeKeys, List.map_cons]
      exact ih.cons₂ _

theorem not_mem_storeRemove (j k : Uid) (s : EventStore)
    (h : j ∉ storeKeys s) : j ∉ storeKeys (storeRemove k s).1 :=
  fun hmem => h ((storeRemove_keys_sublist k s).subset hmem)

theorem nodup_storeRemove (k : Uid) (s : EventStore)
    (h : (storeKeys s).Nodup) : (storeKeys (storeRemove k s).1).Nodup :=
  h.sublist (storeRemove_keys_sublist k s)

theorem self_not_mem_storeRemove (k : Uid) (s : EventStore)
    (h : (storeKeys s).Nodup) : k ∉ storeKeys (storeRemove k s).1 := by
  induction s with
  | nil => simp [storeRemove, storeKeys]
  | cons p rest ih =>
    obtain ⟨k', v'⟩ := p
    simp only [storeKeys, List.map_cons, List.nodup_cons] at h
    by_cases hk : k = k'
    · simp only [storeRemove, if_pos hk]
      subst hk
      exact h.1
    · simp only [storeRemove, if_neg hk, storeKeys, List.map_cons,
        List.mem_cons, not_or]
      exact ⟨hk, ih h.2⟩

theorem storeInsert_snd (k : Uid) (v : TrackedEvent) (s : EventStore) :
    (storeInsert k v s).2 = storeGet k s := by
  induction s with
  | nil => rfl
  | cons p rest ih =>
    obtain ⟨k', v'⟩ := p
    by_cases hk : k = k'
    · simp [storeInsert, storeGet, hk]
    · simp only [storeInsert, if_neg hk, storeGet, ih]

theorem storeGet_storeInsert_self (k : Uid) (v : TrackedEvent)
    (s : EventStore) : storeGet k (storeInsert k v s).1 = some v := by
  induction s with
  | nil => simp [storeInsert, storeGet]
  | cons p rest ih =>
    obtain ⟨k', v'⟩ := p
    by_cases hk : k = k'
    · simp [storeInsert, storeGet, hk]
    · simp only [storeInsert, if_neg hk, storeGet, ih, if_neg hk]

theorem storeMaxKey_none (s : EventStore) (h : storeMaxKey s = none) :
    s = [] := by
  cases s with
  | nil => rfl
  | cons p rest =>
    exfalso
    cases hh : storeMaxKey rest <;> simp [storeMaxKey, hh] at h

theorem le_storeMaxKey (s : EventStore) (m : Uid)
    (h : storeMaxKey s = some m) : ∀ k ∈ storeKeys s, k ≤ m := by
  induction s generalizing m with
  | nil => simp [storeKeys]
  | cons p rest ih =>
    obtain ⟨k', v'⟩ := p
    intro k hk
    simp only [storeKeys, List.map_cons, List.mem_cons] at hk
    cases hh : storeMaxKey rest with
    | none =>
      simp only [storeMaxKey, hh, Option.some.injEq] at h
      subst h
      rcases hk with hk | hk
      · exact le_of_eq hk
      · rw [storeMaxKey_none rest hh] at hk
        simp [storeKeys] at hk
    | some m' =>
      simp only [storeMaxKey, hh, Option.some.injEq] at h
      subst h
      rcases hk with hk | hk
      · subst hk; exact le_max_left _ _
      · exact le_trans (ih m' hh k hk) (le_max_right _ _)

theorem storeMaxKey_mem (s : EventStore) (m : Uid)
    (h : storeMaxKey s = some m) : m ∈ storeKeys s := by
  induction s generalizing m with
  | nil => simp [storeMaxKey] at h
  | cons p rest ih =>
    obtain ⟨k', v'⟩ := p
    rw [show storeKeys ((k', v') :: rest) = k' :: storeKeys rest from rfl]
    cases hh : storeMaxKey rest with
    | none =>
      simp only [storeMaxKey, hh, Option.some.injEq] at h
      subst h
      exact List.mem_cons_self _ _
    | some m' =>
      simp only [storeMaxKey, hh, Option.some.injEq] at h
      subst h
      rcases Nat.le_total k' m' with hle | hle
      · rw [max_eq_right hle]
        exact List.mem_cons_of_mem _ (ih m' hh)
      · rw [max_eq_left hle]
        exact List.mem_cons_self _ _

theorem next_free_uid_not_mem (s : EventStore) :
    s.next_free_uid ∉ storeKeys s := by
  intro hmem
  unfold EventStore.next_free_uid at hmem
  cases hh : storeMaxKey s with
  | none =>
    rw [hh] at hmem
    rw [storeMaxKey_none s hh] at hmem
    simp [storeKeys] at hmem
  | some m =>
    rw [hh] at hmem
    have := le_storeMaxKey s m hh _ hmem
    simp [Uid.next] at this

theorem remove_event_eq (s : EventStore) (k : Uid) :
    remove_event s k = ((storeRemove k s).1, (storeRemove k s).2) := by
  unfold remove_event EventStore.remove
  cases h : storeRemove k s with
  | mk s' o => cases o <;> simp [h]

theorem remove_event_none (s s1 : EventStore) (k : Uid)
    (h : remove_event s k = (s1, none)) : s1 = s ∧ k ∉ storeKeys s := by
  rw [remove_event_eq] at h
  simp only [Prod.mk.injEq] at h
  exact storeRemove_none k s s1 (by rw [Prod.ext_iff]; exact ⟨h.1, h.2⟩)

theorem remove_event_of_not_mem (s : EventStore) (k : Uid)
    (h : k ∉ storeKeys s) : remove_event s k = (s, none) := by
  rw [remove_event_eq, storeRemove_of_not_mem k s h]

theorem removeAll_nil (s : EventStore) : removeAll s [] = s := rfl

theorem removeAll_cons (s : EventStore) (u : Uid) (l : List Uid) :
    removeAll s (u :: l) = removeAll (remove_event s u).1 l := rfl

theorem not_mem_removeAll (v : Uid) (l : List Uid) (s : EventStore)
    (h : v ∉ storeKeys s) : v ∉ storeKeys (removeAll s l) := by
  induction l generalizing s with
  | nil => exact h
  | cons u rest ih =>
    rw [removeAll_cons]
    refine ih _ ?_
    rw [remove_event_eq]
    exact not_mem_storeRemove v u s h

theorem remove_apply_go_cons_none (s s1 : EventStore) (u : Uid)
    (rest : List Uid) (acc : List TrackedEvent)
    (hr : remove_event s u = (s1, none)) :
    remove_apply_go s (u :: rest) acc = (s1, .error (.EventNotFound u)) := by
  unfold remove_apply_go
  rw [hr]

theorem remove_apply_go_cons_some (s s1 : EventStore) (u : Uid)
    (rest : List Uid) (acc : List TrackedEvent) (te : TrackedEvent)
    (hr : remove_event s u = (s1, some te)) :
    remove_apply_go s (u :: rest) acc
      = remove_apply_go s1 rest (acc ++ [te]) := by
  conv_lhs => rw [remove_apply_go]
  rw [hr]

theorem remove_go_error (uids : List Uid) :
    ∀ (s s' : EventStore) (acc : List TrackedEvent) (e : CommandError),
    (storeKeys s).Nodup →
    remove_apply_go s uids acc = (s', .error e) →
    ∃ pre u post, uids = pre ++ u :: post
      ∧ e = CommandError.EventNotFound u
      ∧ s' = removeAll s pre
      ∧ u ∉ storeKeys s'
      ∧ ∀ v ∈ pre, v ∉ storeKeys s' := by
  induction uids with
  | nil =>
    intro s s' acc e _ h
    exact absurd h (by simp [remove_apply_go])
  | cons u rest ih =>
    intro s s' acc e hnd h
    cases hr : remove_event s u with
    | mk s1 o =>
      cases o with
      | none =>
        rw [remove_apply_go_cons_none s s1 u rest acc hr] at h
        simp only [Prod.mk.injEq] at h
        obtain ⟨hs, he⟩ := h
        obtain ⟨hseq, hmem⟩ := remove_event_none s s1 u hr
        subst hs
        refine ⟨[], u, rest, by simp, ?_, ?_, ?_, by simp⟩
        · cases he; rfl
        · rw [removeAll_nil, hseq]
        · rw [hseq]; exact hmem
      | some te =>
        rw [remove_apply_go_cons_some s s1 u rest acc te hr] at h
        have hs1 : s1 = (storeRemove u s).1 := by
          rw [remove_event_eq] at hr
          exact (Prod.mk.injEq _ _ _ _ ▸ hr).1.symm
        have hnd1 : (storeKeys s1).Nodup := by
          rw [hs1]; exact nodup_storeRemove u s hnd
        obtain ⟨pre, u', post, h1, h2, h3, h4, h5⟩ :=
          ih s1 s' (acc ++ [te]) e hnd1 h
        refine ⟨u :: pre, u', post, by rw [h1, List.cons_append], h2, ?_, h4, ?_⟩
        · rw [removeAll_cons, hr]
          exact h3
        · intro v hv
          rcases List.mem_cons.mp hv with rfl | hv
          · rw [h3]
            refine not_mem_removeAll v pre s1 ?_
            rw [hs1]
            exact self_not_mem_storeRemove v s hnd
          · exact h5 v hv

theorem completeAll_nil (now : LocalTime) (s : EventStore) :
    completeAll now s [] = s := rfl

theorem completeAll_cons_found (now : LocalTime) (s : EventStore) (k : Uid)
    (l : List Uid) (te : TrackedEvent) (hg : storeGet k s = some te) :
    completeAll now s (k :: l)
      = completeAll now (storeInsert k ⟨te.event, complete_step te now⟩ s).1 l := by
  unfold completeAll
  rw [List.foldl_cons, hg]

theorem complete_apply_go_cons_none (now : LocalTime) (s : EventStore)
    (u : Uid) (rest : List Uid) (acc : List (Uid × Status))
    (hg : storeGet u s = none) :
    complete_apply_go now s (u :: rest) acc
      = (s, .error (.EventNotFound u)) := by
  unfold complete_apply_go
  rw [hg]

theorem complete_apply_go_cons_some (now : LocalTime) (s : EventStore)
    (u : Uid) (rest : List Uid) (acc : List (Uid × Status))
    (te : TrackedEvent) (hg : storeGet u s = some te) :
    complete_apply_go now s (u :: rest) acc
      = complete_apply_go now
          (storeInsert u ⟨te.event, complete_step te now⟩ s).1 rest
          (acc ++ [(u, te.state)]) := by
  conv_lhs => rw [complete_apply_go]
  rw [hg]

theorem complete_go_error (uids : List Uid) :
    ∀ (now : LocalTime) (s s' : EventStore) (acc : List (Uid × Status))
      (e : CommandError),
    complete_apply_go now s uids acc = (s', .error e) →
    ∃ pre u post, uids = pre ++ u :: post
      ∧ e = CommandError.EventNotFound u
      ∧ s' = completeAll now s pre
      ∧ u ∉ storeKeys s' := by
  induction uids with
  | nil =>
    intro now s s' acc e h
    exact absurd h (by simp [complete_apply_go])
  | cons u rest ih =>
    intro now s s' acc e h
    cases hg : storeGet u s with
    | none =>
      rw [complete_apply_go_cons_none now s u rest acc hg] at h
      simp only [Prod.mk.injEq] at h
      obtain ⟨hs, he⟩ := h
      subst hs
      refine ⟨[], u, rest, by simp, ?_, (completeAll_nil now s).symm, ?_⟩
      · cases he; rfl
      · exact storeGet_none_not_mem u s hg
    | some te =>
      rw [complete_apply_go_cons_some now s u rest acc te hg] at h
      obtain ⟨pre, u', post, h1, h2, h3, h4⟩ := ih now _ s' _ e h
      refine ⟨u :: pre, u', post, by rw [h1, List.cons_append], h2, ?_, h4⟩
      rw [completeAll_cons_found now s u pre te hg]
      exact h3

/-! ## Claim theorems -/

/-- C1: the forward-only law fails on the code. A `Monthly(day 1, 00:00)`
event dormant since 2020-12-15T10:00:00 (anchor) is scheduled for
2020-01-01T00:00:00 — the December→January month advance keeps the
anchor's year, so the returned time is strictly BEFORE the anchor,
violating `next_due(anchor) ≥ anchor`. -/
theorem C1_monthly_december_schedules_before_anchor :
    TrackedEvent.next_trigger_time
        ⟨⟨"m", .Periodic (.Monthly ⟨1⟩ 0), false⟩,
         ⟨[], .Dormant (instant (daysFromCivil 2020 12 15) 36000)⟩⟩
      = .scheduled (instant (daysFromCivil 2020 1 1) 0)
    ∧ instant (daysFromCivil 2020 1 1) 0
        < instant (daysFromCivil 2020 12 15) 36000 := by
  constructor
  · rfl
  · decide

/-- C2: for a `Monthly` interval whose candidate precedes a December
anchor, the advanced candidate is January of the SAME year (`2020`), not
January of the following year as the claim states: the code computes the
month as `month % 12 + 1` but leaves the year at `prev_trigger.year()`. -/
theorem C2_monthly_december_wraps_to_same_year :
    TrackedEvent.next_trigger_time
        ⟨⟨"m", .Periodic (.Monthly ⟨5⟩ 0), false⟩,
         ⟨[], .Dormant (instant (daysFromCivil 2020 12 20) 0)⟩⟩
      = .scheduled (instant (daysFromCivil 2020 1 5) 0)
    ∧ yearOf (instant (daysFromCivil 2020 1 5) 0) = 2020
    ∧ instant (daysFromCivil 2020 1 5) 0
        ≠ instant (daysFromCivil 2021 1 5) 0 := by
  refine ⟨rfl, ?_, ?_⟩ <;> decide

/-- C3: the undo round-trip fails on the code. Removing uid 0 from a store
with uids {0, 1} and then running the produced inverse re-inserts the
removed pair at the fresh uid 2 (via `add_event_with_state` /
`next_free_uid`), not at its original uid 0; likewise the inverse of
`Alter` re-adds the original pair at a fresh uid, not the original one. -/
theorem C3_undo_reinserts_at_fresh_uid :
    RemoveCommand.apply [0] sampleStore
      = ([(1, sampleEventB)], .ok (some (.reinsertEvents [sampleEventA])))
    ∧ runInverse (.reinsertEvents [sampleEventA]) [(1, sampleEventB)]
      = [(1, sampleEventB), (2, sampleEventA)]
    ∧ storeGet 0 sampleStore = some sampleEventA
    ∧ storeGet 0 (runInverse (.reinsertEvents [sampleEventA])
        [(1, sampleEventB)]) = none
    ∧ AlterCommand.apply 0 sampleDataB sampleStore5
      = ([(5, sampleEventB), (6, ⟨sampleDataB, sampleEventA.state⟩)],
         .ok (some (.alterRestore 6 sampleEventA)))
    ∧ runInverse (.alterRestore 6 sampleEventA)
        [(5, sampleEventB), (6, ⟨sampleDataB, sampleEventA.state⟩)]
      = [(5, sampleEventB), (6, sampleEventA)]
    ∧ storeGet 0 (runInverse (.alterRestore 6 sampleEventA)
        [(5, sampleEventB), (6, ⟨sampleDataB, sampleEventA.state⟩)]) = none :=
  ⟨rfl, rfl, rfl, rfl, rfl, rfl, rfl⟩

/-- C4 counterexample: `EventStore::add` on an occupied uid reports the
already-exists error carrying both values, but the store is NOT left
unchanged — `BTreeMap::insert` has already replaced the stored entry with
the incoming one before the error is built. -/
theorem C4_add_on_occupied_uid_overwrites :
    EventStore.add [(0, sampleEventA)] 0 sampleEventB
      = ([(0, sampleEventB)], .error ⟨0, sampleEventA, sampleEventB⟩)
    ∧ (EventStore.add [(0, sampleEventA)] 0 sampleEventB).1
        ≠ [(0, sampleEventA)] := by
  refine ⟨rfl, ?_⟩
  decide

/-- C4 amended: on an occupied uid, `add` returns the already-exists error
carrying the existing and incoming values, and the resulting store is the
post-`insert` store, in which the uid now maps to the INCOMING event. -/
theorem C4_add_occupied_reports_both_values_but_overwrites
    (s : EventStore) (uid : Uid) (ev old : TrackedEvent)
    (h : storeGet uid s = some old) :
    EventStore.add s uid ev
      = ((storeInsert uid ev s).1, .error ⟨uid, old, ev⟩)
    ∧ storeGet uid (storeInsert uid ev s).1 = some ev := by
  have h2 : (storeInsert uid ev s).2 = some old := by
    rw [storeInsert_snd]; exact h
  constructor
  · unfold EventStore.add
    cases hsi : storeInsert uid ev s with
    | mk s1 o =>
      rw [hsi] at h2
      simp only at h2
      subst h2
      simp
  · exact storeGet_storeInsert_self uid ev s

/-- C4 witness: instantiates the amended theorem on a concrete occupied
store. -/
theorem C4_witness :
    storeGet 0 [(0, sampleEventA)] = some sampleEventA
    ∧ (EventStore.add [(0, sampleEventA)] 0 sampleEventB
        = ((storeInsert 0 sampleEventB [(0, sampleEventA)]).1,
           .error ⟨0, sampleEventA, sampleEventB⟩)
      ∧ storeGet 0 (storeInsert 0 sampleEventB [(0, sampleEventA)]).1
          = some sampleEventB) :=
  ⟨rfl, C4_add_occupied_reports_both_values_but_overwrites
    [(0, sampleEventA)] 0 sampleEventB sampleEventA rfl⟩

/-- C5 counterexample: a dormant, non-stacking `MultiAnnual` event is not
in the triggered non-stacking case, yet the scheduling query does not
return a defined due time — it panics (`unimplemented!`), modelled as
`crash`. -/
theorem C5_multiannual_dormant_has_no_due_time :
    TrackedEvent.next_trigger_time
        ⟨⟨"x", .Periodic (.MultiAnnual []), false⟩, ⟨[], .Dormant 0⟩⟩
      = .crash
    ∧ ∀ t : LocalTime,
        TrackedEvent.next_trigger_time
            ⟨⟨"x", .Periodic (.MultiAnnual []), false⟩, ⟨[], .Dormant 0⟩⟩
          ≠ .scheduled t := by
  refine ⟨rfl, fun t h => ?_⟩
  rw [show TrackedEvent.next_trigger_time
      ⟨⟨"x", .Periodic (.MultiAnnual []), false⟩, ⟨[], .Dormant 0⟩⟩
    = SchedResult.crash from rfl] at h
  exact SchedResult.noConfusion h

/-- C5 amended: the scheduling query returns "not scheduled" (`None`)
exactly when the status kind is `Triggered` and the event does not stack;
in every other combination it returns a due time or fails (panics — e.g.
`MultiAnnual` is unimplemented), but never `None`. -/
theorem C5_not_scheduled_iff_triggered_nonstacking (ev : TrackedEvent) :
    ev.next_trigger_time = .notScheduled
      ↔ ev.state.status = StatusKind.Triggered ∧ ev.event.stacks' = false := by
  unfold TrackedEvent.next_trigger_time
  by_cases h : ev.state.status = StatusKind.Triggered ∧ ev.event.stacks' = false
  · simp [h]
  · rw [if_neg h]
    refine iff_of_false ?_ h
    cases anchor_of ev.state with
    | none => simp
    | some prev =>
      cases hsf : schedule_from ev.event.interval prev with
      | none => simp [hsf]
      | some t => simp [hsf]

/-- C6: the `trigger_now` transition table: `Dormant`/`Completed` become
`Triggered` with history exactly `[now]` reporting `true`; `Skip` becomes
`Completed(now)` with cleared history reporting `false`; `Triggered` stays
`Triggered` with `now` appended to the history, reporting `false`. -/
theorem C6_trigger_now_transition_table (s : Status) (now : LocalTime) :
    s.trigger_now now =
      match s.status with
      | .Dormant _ => (⟨[now], .Triggered⟩, true)
      | .Completed _ => (⟨[now], .Triggered⟩, true)
      | .Skip _ => (⟨[], .Completed now⟩, false)
      | .Triggered => (⟨s.trigger_times ++ [now], .Triggered⟩, false) := by
  obtain ⟨ts, st⟩ := s
  cases st <;> rfl

/-- C8 counterexample: the duration heuristic of a `MultiAnnual` interval
is NOT undefined — the code returns `Some(Duration::days(365 / len))`,
here 365 days for a single-date list. -/
theorem C8_multiannual_heuristic_is_defined :
    Interval.to_duration_heuristic (.Periodic (.MultiAnnual [⟨1, 1⟩]))
      = some (365 * 86400)
    ∧ Interval.to_duration_heuristic (.Periodic (.MultiAnnual [⟨1, 1⟩]))
      ≠ none := by
  refine ⟨rfl, ?_⟩
  decide

/-- C8 amended: the duration heuristic is the exact delta for
`FromLastCompletion`, 1 day for `Daily`, 7 for `Weekly`, 30 for `Monthly`,
365 for `Annual`, and `365 / len(days)` days (integer division) for a
`MultiAnnual` with a non-empty date list (an empty list makes the Rust
code panic on division by zero). Durations are in seconds. -/
theorem C8_duration_heuristic_table :
    (∀ delta : TimeDelta,
      Interval.to_duration_heuristic (.FromLastCompletion delta)
        = some delta.to_duration)
    ∧ (∀ t : NaiveTime,
      Interval.to_duration_heuristic (.Periodic (.Daily t)) = some 86400)
    ∧ (∀ (w : Weekday) (t : NaiveTime),
      Interval.to_duration_heuristic (.Periodic (.Weekly w t))
        = some (7 * 86400))
    ∧ (∀ (d : MonthlyDay) (t : NaiveTime),
      Interval.to_duration_heuristic (.Periodic (.Monthly d t))
        = some (30 * 86400))
    ∧ (∀ (d : AnnualDay) (t : NaiveTime),
      Interval.to_duration_heuristic (.Periodic (.Annual d t))
        = some (365 * 86400))
    ∧ (∀ ds : List AnnualDay, ds ≠ [] →
      Interval.to_duration_heuristic (.Periodic (.MultiAnnual ds))
        = some ((365 / (ds.length : Int)) * 86400)) :=
  ⟨fun _ => rfl, fun _ => rfl, fun _ _ => rfl, fun _ _ => rfl,
   fun _ _ => rfl, fun _ _ => rfl⟩

/-- C8 witness: the amended table instantiated at a concrete non-empty
`MultiAnnual` list (two dates → 182 days). -/
theorem C8_witness :
    ([⟨1, 1⟩, ⟨6, 1⟩] : List AnnualDay) ≠ []
    ∧ Interval.to_duration_heuristic
        (.Periodic (.MultiAnnual [⟨1, 1⟩, ⟨6, 1⟩]))
      = some ((365 / ((2 : Nat) : Int)) * 86400) :=
  ⟨by decide, C8_duration_heuristic_table.2.2.2.2.2 [⟨1, 1⟩, ⟨6, 1⟩]
    (by decide)⟩

/-- C10: `EventData::new` always sets `stacks = false`, so an event built
through it that is currently `Triggered` is never scheduled again: the
stacking guard returns "not scheduled" regardless of interval, history and
text. -/
theorem C10_new_events_never_stack (i : Interval) (txt : String)
    (ts : List LocalTime) :
    (EventData.new i txt).stacks' = false
    ∧ TrackedEvent.next_trigger_time
        ⟨EventData.new i txt, ⟨ts, .Triggered⟩⟩ = .notScheduled :=
  ⟨rfl, rfl⟩

/-- C7: atomicity on failure. The single-target commands are
all-or-nothing: `Trigger` and `Alter` on a missing uid return
`EventNotFound` with the store unchanged and no inverse (the error carries
none), and `Create` never fails on the tracker receiver. The multi-target
commands stop at the first missing uid with `EventNotFound`: on failure at
`u` the list splits as `pre ++ u :: post`, the resulting store is exactly
the one with the earlier uids already removed (`Remove`) or completed
(`Complete`) — the earlier mutations are NOT rolled back. -/
theorem C7_command_atomicity :
    (∀ (s : EventStore) (uid : Uid) (now : LocalTime),
      uid ∉ storeKeys s →
      TriggerCommand.apply uid now s = (s, .error (.EventNotFound uid)))
    ∧ (∀ (s : EventStore) (uid : Uid) (ev : EventData),
      uid ∉ storeKeys s →
      AlterCommand.apply uid ev s = (s, .error (.EventNotFound uid)))
    ∧ (∀ (s : EventStore) (ev : EventData) (now : LocalTime),
      CreateCommand.apply ev now s
        = ((storeInsert s.next_free_uid ⟨ev, ⟨[], .Dormant now⟩⟩ s).1,
           .ok (some (.removeNew s.next_free_uid))))
    ∧ (∀ (s s' : EventStore) (uids : List Uid) (e : CommandError),
      (storeKeys s).Nodup →
      RemoveCommand.apply uids s = (s', .error e) →
      ∃ pre u post, uids = pre ++ u :: post
        ∧ e = CommandError.EventNotFound u
        ∧ s' = removeAll s pre
        ∧ u ∉ storeKeys s'
        ∧ ∀ v ∈ pre, v ∉ storeKeys s')
    ∧ (∀ (now : LocalTime) (s s' : EventStore) (uids : List Uid)
        (e : CommandError),
      CompleteCommand.apply uids now s = (s', .error e) →
      ∃ pre u post, uids = pre ++ u :: post
        ∧ e = CommandError.EventNotFound u
        ∧ s' = completeAll now s pre
        ∧ u ∉ storeKeys s') := by
  refine ⟨?_, ?_, ?_, ?_, ?_⟩
  · intro s uid now h
    unfold TriggerCommand.apply
    rw [storeGet_of_not_mem uid s h]
  · intro s uid ev h
    unfold AlterCommand.apply
    rw [remove_event_of_not_mem s uid h]
  · intro s ev now
    rfl
  · intro s s' uids e hnd happ
    unfold RemoveCommand.apply at happ
    cases hgo : remove_apply_go s uids [] with
    | mk s2 r =>
      rw [hgo] at happ
      cases r with
      | ok evs => simp at happ
      | error e2 =>
        simp only [Prod.mk.injEq, Except.error.injEq] at happ
        obtain ⟨h1, h2⟩ := happ
        rw [h1, h2] at hgo
        exact remove_go_error uids s s' [] e hnd hgo
  · intro now s s' uids e happ
    unfold CompleteCommand.apply at happ
    cases hgo : complete_apply_go now s uids [] with
    | mk s2 r =>
      rw [hgo] at happ
      cases r with
      | ok snaps => simp at happ
      | error e2 =>
        simp only [Prod.mk.injEq, Except.error.injEq] at happ
        obtain ⟨h1, h2⟩ := happ
        rw [h1, h2] at hgo
        exact complete_go_error uids now s s' [] e hgo

/-- C7 witness: each component of the atomicity theorem instantiated on a
concrete store (the empty store, with uid 3 missing). -/
theorem C7_witness :
    TriggerCommand.apply 3 0 [] = ([], .error (.EventNotFound 3))
    ∧ AlterCommand.apply 3 sampleDataA [] = ([], .error (.EventNotFound 3))
    ∧ CreateCommand.apply sampleDataA 0 []
        = ((storeInsert (EventStore.next_free_uid [])
              ⟨sampleDataA, ⟨[], .Dormant 0⟩⟩ []).1,
           .ok (some (.removeNew (EventStore.next_free_uid []))))
    ∧ (∃ pre u post, ([3] : List Uid) = pre ++ u :: post
        ∧ CommandError.EventNotFound 3 = CommandError.EventNotFound u
        ∧ ([] : EventStore) = removeAll [] pre
        ∧ u ∉ storeKeys ([] : EventStore)
        ∧ ∀ v ∈ pre, v ∉ storeKeys ([] : EventStore))
    ∧ (∃ pre u post, ([3] : List Uid) = pre ++ u :: post
        ∧ CommandError.EventNotFound 3 = CommandError.EventNotFound u
        ∧ ([] : EventStore) = completeAll 0 [] pre
        ∧ u ∉ storeKeys ([] : EventStore)) :=
  ⟨C7_command_atomicity.1 [] 3 0 (by decide),
   C7_command_atomicity.2.1 [] 3 sampleDataA (by decide),
   C7_command_atomicity.2.2.1 [] sampleDataA 0,
   C7_command_atomicity.2.2.2.1 [] [] [3] (.EventNotFound 3) (by decide) rfl,
   C7_command_atomicity.2.2.2.2 0 [] [] [3] (.EventNotFound 3) rfl⟩

/-- C9: uid allocation. `next_free_uid` is 0 on the empty store and
`1 + max(existing keys)` otherwise: every existing key is strictly below
it, and (unless it is 0) its predecessor is an existing key. In
particular keys `{0,1,2}` give 3, and keys `{0,2}` (1 removed) also give
3 — removing the highest-keyed entry makes its number available again. -/
theorem C9_next_free_uid_allocation :
    EventStore.next_free_uid [] = 0
    ∧ EventStore.next_free_uid
        [(0, sampleEventA), (1, sampleEventB), (2, sampleEventA)] = 3
    ∧ EventStore.next_free_uid [(0, sampleEventA), (2, sampleEventA)] = 3
    ∧ EventStore.next_free_uid [(0, sampleEventA), (1, sampleEventB)] = 2
    ∧ (∀ (s : EventStore) (k : Uid), k ∈ storeKeys s → k < s.next_free_uid)
    ∧ (∀ s : EventStore,
        s.next_free_uid = 0 ∨ s.next_free_uid - 1 ∈ storeKeys s) := by
  refine ⟨rfl, rfl, rfl, rfl, ?_, ?_⟩
  · intro s k hk
    unfold EventStore.next_free_uid
    cases hh : storeMaxKey s with
    | none =>
      rw [storeMaxKey_none s hh] at hk
      simp [storeKeys] at hk
    | some m =>
      have := le_storeMaxKey s m hh k hk
      exact Nat.lt_succ_of_le this
  · intro s
    cases hh : storeMaxKey s with
    | none =>
      left
      unfold EventStore.next_free_uid
      rw [hh]
    | some m =>
      right
      unfold EventStore.next_free_uid
      rw [hh]
      unfold Uid.next
      simpa using storeMaxKey_mem s m hh

/-- C9 witness: the general allocation bound instantiated on a concrete
occupied store. -/
theorem C9_witness :
    (0 : Uid) ∈ storeKeys [(0, sampleEventA)]
    ∧ (0 : Uid) < EventStore.next_free_uid [(0, sampleEventA)] :=
  ⟨by decide,
   C9_next_free_uid_allocation.2.2.2.2.1 [(0, sampleEventA)] 0 (by decide)⟩

end OilRs
